import Mathlib

/-!
Verification of the QsLog file-rotation engine (QsLogDestFile.cpp / .h).

The development shallowly embeds the two rotation strategies
(`SizeRotationStrategy`, `DailyRotationStrategy`) and the two destination
write paths (`FileDestination`, `DailyFileDestination`).

Modelling conventions:
* Wall-clock time is modelled as a number of seconds (`Nat`); `QDateTime`
  comparisons become comparisons of these numbers, `setTime` + `addDays(1)`
  from `next_rotation_tp` becomes arithmetic on the day index `sec / 86400`.
* The filesystem touched by `SizeRotationStrategy::rotate` is a map from
  `SizeName` to optional file contents, where `SizeName.canonical` stands for
  `mFileName` and `SizeName.backup i` stands for `mFileName + ".i"`
  (the instantiations of `logNamePattern = mFileName + ".%1"`); these paths
  are pairwise distinct strings, which the inductive name type reflects.
* `QFile::remove` succeeds iff the file exists; `QFile::rename` succeeds iff
  the source exists and the target does not (the code always removes the
  target first).  Failures print to `std::cerr`; the model accumulates the
  corresponding messages in a `List String`.
-/

namespace QsLog

/-! ## Time model -/

def secondsPerDay : Nat := 86400

/-- `DailyRotationStrategy` state: `mFileName`, `rotation_hour_`,
`rotation_minute_`, `rotation_tp_` (QsLogDestFile.h lines 102-107). -/
structure DailyStrategy where
  fileName : String
  rotation_hour : Nat
  rotation_minute : Nat
  rotation_tp : Nat
  deriving DecidableEq

/-- `DailyRotationStrategy::next_rotation_tp` (QsLogDestFile.cpp 258-268):
take the current time, set the time of day to
`rotation_hour:rotation_minute:00`, and add one day. -/
def next_rotation_tp (nowSec rotation_hour rotation_minute : Nat) : Nat :=
  (nowSec / secondsPerDay + 1) * secondsPerDay
    + rotation_hour * 3600 + rotation_minute * 60

/-- `DailyRotationStrategy::shouldRotate` (QsLogDestFile.cpp 192-202):
if `nowTime > rotation_tp_`, store a fresh deadline and return true,
otherwise return false.  Returns the result together with the
(possibly updated) strategy state. -/
def dailyShouldRotate (nowSec : Nat) (st : DailyStrategy) : Bool × DailyStrategy :=
  if st.rotation_tp < nowSec then
    (true, { st with
               rotation_tp := next_rotation_tp nowSec st.rotation_hour st.rotation_minute })
  else
    (false, st)

/-! ## `calc_filename` -/

/-- Character-level embedding of `QString::split('.')`: splits into the
(nonempty) list of parts between dots, keeping empty parts. -/
def splitCharsOnDot : List Char → List String
  | [] => [""]
  | c :: cs =>
    let rest := splitCharsOnDot cs
    if c = '.' then "" :: rest
    else
      match rest with
      | [] => [String.mk [c]]
      | r :: rs => String.mk (c :: r.data) :: rs

/-- `DailyRotationStrategy::calc_filename` (QsLogDestFile.cpp 246-256):
split the file name on `'.'`, append an empty part when there is no
extension, and build `"%1_%2_%3_%4.%5"` from base name, year, month, day
(no zero padding: `QString::arg(int)` renders the plain decimal) and
extension. -/
def calc_filename (fileName : String) (year month day : Nat) : String :=
  let split0 := splitCharsOnDot fileName.toList
  let fileNamesplit := if split0.length < 2 then split0 ++ [""] else split0
  (fileNamesplit.getD 0 "") ++ "_" ++ toString year ++ "_" ++ toString month
    ++ "_" ++ toString day ++ "." ++ (fileNamesplit.getD 1 "")

/-! ## Size-strategy setters -/

/-- `SizeRotationStrategy::MaxBackupCount = 10` (QsLogDestFile.cpp 43). -/
def MaxBackupCount : Int := 10

/-- `SizeRotationStrategy::setBackupCount` (QsLogDestFile.cpp 126-130):
`Q_ASSERT(backups >= 0); mBackupsCount = qMin(backups, MaxBackupCount)`.
The assertion is a precondition; the stored value is the clamp. -/
def setBackupCount (backups : Int) : Int :=
  min backups MaxBackupCount

/-! ## Size-strategy filesystem model -/

/-- The file paths touched by `SizeRotationStrategy::rotate`:
`canonical` stands for `mFileName` and `backup i` for the instantiation
`logNamePattern.arg(i)`, i.e. `mFileName + "." + i` (QsLogDestFile.cpp 83).
These strings are pairwise distinct, which the inductive type reflects. -/
inductive SizeName where
  | canonical : SizeName
  | backup : Nat → SizeName
  deriving DecidableEq

/-- The filesystem as seen through these paths: present file contents. -/
def SizeFS : Type := SizeName → Option String

/-- Rendering of a `SizeName` as the string used in `std::cerr` messages. -/
def sizeNameStr (fileName : String) : SizeName → String
  | .canonical => fileName
  | .backup i => fileName ++ "." ++ toString i

def fsSet (fs : SizeFS) (n : SizeName) (v : Option String) : SizeFS :=
  fun m => if m = n then v else fs m

/-- `QFile::exists`. -/
def fsExists (fs : SizeFS) (n : SizeName) : Bool :=
  (fs n).isSome

/-- `QFile::remove`: succeeds iff the file exists. -/
def fsRemove (fs : SizeFS) (n : SizeName) : SizeFS × Bool :=
  if (fs n).isSome then (fsSet fs n none, true) else (fs, false)

/-- `QFile::rename`: succeeds iff the source exists and the target does
not exist. -/
def fsRename (fs : SizeFS) (oldName newName : SizeName) : SizeFS × Bool :=
  if (fs oldName).isSome && (fs newName).isNone then
    (fsSet (fsSet fs newName (fs oldName)) oldName none, true)
  else (fs, false)

/-- Loop 1 of `SizeRotationStrategy::rotate` (QsLogDestFile.cpp 84-91):
find the last existing backup that can be shifted up; `i` starts at 1 and
the loop runs while `i <= mBackupsCount`, breaking at the first missing
backup; `fuel` counts the remaining iterations. -/
def scanGo (fs : SizeFS) (backupsCount : Nat) : Nat → Nat → Nat → Nat
  | 0, _, last => last
  | fuel + 1, i, last =>
    if fsExists fs (.backup i) then
      scanGo fs backupsCount fuel (i + 1) (min i (backupsCount - 1))
    else last

def lastExistingBackupIndex (fs : SizeFS) (backupsCount : Nat) : Nat :=
  scanGo fs backupsCount backupsCount 1 0

/-- One iteration of loop 2 of `rotate` (QsLogDestFile.cpp 94-103): delete
`<file>.(i+1)`, then rename `<file>.i` to `<file>.(i+1)`, reporting a
failed rename on the error channel. -/
def shiftStep (fileName : String) (st : SizeFS × List String) (i : Nat) :
    SizeFS × List String :=
  let fs1 := (fsRemove st.1 (.backup (i + 1))).1
  let renamed := fsRename fs1 (.backup i) (.backup (i + 1))
  if renamed.2 then (renamed.1, st.2)
  else (renamed.1, st.2 ++ ["QsLog: could not rename backup "
          ++ sizeNameStr fileName (.backup i) ++ " to "
          ++ sizeNameStr fileName (.backup (i + 1))])

/-- Loop 2 of `rotate`: `for (int i = lastExistingBackupIndex; i >= 1; --i)`,
shifting every existing backup up by one index, highest first. -/
def shiftUp (fileName : String) (st : SizeFS × List String) : Nat → SizeFS × List String
  | 0 => st
  | i + 1 => shiftUp fileName (shiftStep fileName st (i + 1)) i

/-- `SizeRotationStrategy::rotate` (QsLogDestFile.cpp 74-113).  Returns the
new filesystem together with the `std::cerr` messages issued.  With
`mBackupsCount == 0` the canonical file is deleted outright; otherwise the
backup chain is shifted up and the canonical file is renamed to
`<file>.1` (after deleting any stale `<file>.1`). -/
def sizeRotate (fs : SizeFS) (fileName : String) (backupsCount : Nat) :
    SizeFS × List String :=
  if backupsCount = 0 then
    ((fsRemove fs .canonical).1,
      if (fsRemove fs .canonical).2 then []
      else ["QsLog: backup delete failed " ++ fileName])
  else
    let shifted := shiftUp fileName (fs, []) (lastExistingBackupIndex fs backupsCount)
    let fs2 := if fsExists shifted.1 (.backup 1) then (fsRemove shifted.1 (.backup 1)).1
      else shifted.1
    let renamed := fsRename fs2 .canonical (.backup 1)
    (renamed.1,
      if renamed.2 then shifted.2
      else shifted.2 ++ ["QsLog: could not rename log " ++ fileName ++ " to "
              ++ sizeNameStr fileName (.backup 1)])

/-- Abstract view of the filesystem used in the backup-chain invariant:
canonical content `c` plus the contiguous backup chain `bs`, where
`<file>.j` holds `bs[j-1]`. -/
def encodeFS (c : Option String) (bs : List String) : SizeFS :=
  fun n =>
    match n with
    | .canonical => c
    | .backup j => if 1 ≤ j ∧ j ≤ bs.length then some (bs.getD (j - 1) "") else none

/-- One write-plus-rotation cycle repeated over a list of canonical
contents: each round stores content `c` at the canonical path and runs
`SizeRotationStrategy::rotate`, starting from an empty directory. -/
def rotationCycle (fileName : String) (backupsCount : Nat)
    (contents : List String) : SizeFS :=
  contents.foldl
    (fun fs c => (sizeRotate (fsSet fs .canonical (some c)) fileName backupsCount).1)
    (fun _ => none)

/-- The backup contents predicted for `rotationCycle`: each round pushes the
rotated content in front and keeps the first `backupsCount - 1` older ones. -/
def backupChain (backupsCount : Nat) (contents : List String) : List String :=
  contents.foldl (fun bs c => c :: bs.take (backupsCount - 1)) []

/-! ## Size strategy state and the `FileDestination` write path -/

/-- UTF-8 byte size of a message: `message.toUtf8().size()`. -/
def utf8Size (s : String) : Int := (s.utf8ByteSize : Int)

/-- `SizeRotationStrategy` state (QsLogDestFile.h 80-84): `mFileName`,
`mCurrentSizeInBytes`, `mMaxSizeInBytes`, `mBackupsCount` (kept in
`[0, MaxBackupCount]` by `setBackupCount`). -/
structure SizeStrategy where
  fileName : String
  mCurrentSizeInBytes : Int
  mMaxSizeInBytes : Int
  mBackupsCount : Nat

/-- `SizeRotationStrategy::includeMessageInCalculation` (QsLogDestFile.cpp
62-65): add the message's UTF-8 byte length to the running total. -/
def includeMessageInCalculation (st : SizeStrategy) (message : String) : SizeStrategy :=
  { st with mCurrentSizeInBytes := st.mCurrentSizeInBytes + utf8Size message }

/-- `SizeRotationStrategy::shouldRotate` (QsLogDestFile.cpp 67-70). -/
def sizeShouldRotate (st : SizeStrategy) : Bool :=
  st.mCurrentSizeInBytes > st.mMaxSizeInBytes

/-- `SizeRotationStrategy::setInitialInfo` (QsLogDestFile.cpp 56-60):
capture the file name and the current size of the just-(re)opened file. -/
def setInitialInfo (st : SizeStrategy) (fileName : String) (fileSize : Int) : SizeStrategy :=
  { st with fileName := fileName, mCurrentSizeInBytes := fileSize }

/-- `FileDestination` state: the filesystem plus the strategy state.  The
open `QFile`/`QTextStream` pair is represented by the canonical file's
content inside `fs`.  `rotations` counts the rotation events taken inside
`write` (specification instrumentation only, not part of the source state)
and `errors` accumulates the `std::cerr` output. -/
structure FileDest where
  fs : SizeFS
  strat : SizeStrategy
  rotations : Nat
  errors : List String

/-- Content of the file at the canonical path; a missing file is created
empty when opened with `QIODevice::Append`. -/
def canonContent (fs : SizeFS) : String := (fs SizeName.canonical).getD ""

/-- `FileDestination::FileDestination` (QsLogDestFile.cpp 133-150): open
the file with `WriteOnly | Text | Append` (the Size strategy's recommended
flag keeps existing content, creating the file when missing), then
`setInitialInfo`. -/
def mkFileDest (fs0 : SizeFS) (filePath : String) (strat0 : SizeStrategy) : FileDest :=
  { fs := fsSet fs0 SizeName.canonical (some (canonContent fs0))
    strat := setInitialInfo strat0 filePath (utf8Size (canonContent fs0))
    rotations := 0
    errors := [] }

/-- The rotation branch of `FileDestination::write` (QsLogDestFile.cpp
155-163): close the file, `rotate()`, reopen in the recommended `Append`
mode, and `setInitialInfo` again. -/
def writeRotatePhase (d : FileDest) : FileDest :=
  let rot := sizeRotate d.fs d.strat.fileName d.strat.mBackupsCount
  let content := (rot.1 SizeName.canonical).getD ""
  { fs := fsSet rot.1 SizeName.canonical (some content)
    strat := setInitialInfo d.strat d.strat.fileName (utf8Size content)
    rotations := d.rotations + 1
    errors := d.errors ++ rot.2 }

/-- The unconditional tail of `write` (QsLogDestFile.cpp 165-166):
`mOutputStream << message << Qt::endl; mOutputStream.flush();`. -/
def writeAppend (d : FileDest) (message : String) : FileDest :=
  { d with
    fs := fsSet d.fs SizeName.canonical (some (canonContent d.fs ++ message ++ "\n")) }

/-- `FileDestination::write` (QsLogDestFile.cpp 152-167). -/
def fdWrite (d : FileDest) (message : String) : FileDest :=
  let d1 := { d with strat := includeMessageInCalculation d.strat message }
  if sizeShouldRotate d1.strat then writeAppend (writeRotatePhase d1) message
  else writeAppend d1 message

def fdWriteAll (d : FileDest) (messages : List String) : FileDest :=
  messages.foldl fdWrite d

/-- Total UTF-8 byte size of a list of messages. -/
def sumSizes (msgs : List String) : Int := (msgs.map utf8Size).sum

/-- Every message followed by the line terminator, in order. -/
def joinTerminated : List String → String
  | [] => ""
  | m :: t => m ++ "\n" ++ joinTerminated t

/-! ## Daily-strategy directory model -/

/-- A file in the log directory: name, modification time, content. -/
structure DEntry where
  name : String
  mtime : Nat
  content : String
  deriving DecidableEq

/-- Lookup of a file's content by name. -/
def dirGet : List DEntry → String → Option String
  | [], _ => none
  | e :: es, name => if e.name = name then some e.content else dirGet es name

/-- Write a file: replace the entry with that name (names are unique in a
directory), or create it. -/
def dirSet : List DEntry → String → String → Nat → List DEntry
  | [], name, c, t => [⟨name, t, c⟩]
  | e :: es, name, c, t =>
    if e.name = name then ⟨name, t, c⟩ :: es
    else e :: dirSet es name c t

/-- `QFileInfo::suffix()`: the part after the last dot, empty when there is
no dot. -/
def qtSuffix (s : String) : String :=
  let parts := splitCharsOnDot s.toList
  if parts.length ≤ 1 then "" else (parts.getLast?).getD ""

/-- The `QDir` wildcard `"*." + ext`: a name matches iff it ends in
`"." ++ ext`. -/
def matchesExt (ext : String) (name : String) : Bool :=
  List.isSuffixOf (("." ++ ext).toList) name.toList

/-- `dir.entryList(["*." + filefilter], QDir::Files | QDir::Readable,
QDir::Time)` (QsLogDestFile.cpp 215): the matching entries, most recently
modified first. -/
def entryList (dir : List DEntry) (ext : String) : List DEntry :=
  List.insertionSort (fun a b => b.mtime ≤ a.mtime)
    (dir.filter (fun e => matchesExt ext e.name))

/-- The deletion loop of `DailyRotationStrategy::rotate` (QsLogDestFile.cpp
216-221): `QFile::remove` each listed name. -/
def removeNames (dir : List DEntry) (names : List String) : List DEntry :=
  dir.filter (fun e => decide (e.name ∉ names))

/-- `DailyRotationStrategy::rotate` (QsLogDestFile.cpp 204-222): retention
cleanup only, no rename: list the files matching `*.<ext>` sorted by
modification time (most recent first) and delete the entries from index 29
onwards. -/
def dailyRotate (dir : List DEntry) (ext : String) : List DEntry :=
  let results := entryList dir ext
  if results.length > 29 then removeNames dir ((results.drop 29).map DEntry.name)
  else dir

/-! ## `DailyFileDestination` -/

/-- A point in time as seen through `QDateTime`: `sec` is the absolute
number of seconds (used by comparisons / `next_rotation_tp`), and `year`,
`month`, `day` are its calendar date fields (used by `calc_filename`). -/
structure Instant where
  sec : Nat
  year : Nat
  month : Nat
  day : Nat

/-- `DailyRotationStrategy::setInitialInfo` (QsLogDestFile.cpp 181-185). -/
def dailySetInitialInfo (st : DailyStrategy) (fileName : String) (nowSec : Nat) :
    DailyStrategy :=
  { st with fileName := fileName,
            rotation_tp := next_rotation_tp nowSec st.rotation_hour st.rotation_minute }

/-- `DailyRotationStrategy::getFileName` (QsLogDestFile.cpp 224-229):
the dated file name computed from the current date. -/
def dailyGetFileName (st : DailyStrategy) (now : Instant) : String :=
  calc_filename st.fileName now.year now.month now.day

/-- `DailyRotationStrategy::recommendedOpenModeFlag` (QsLogDestFile.cpp
231-234): `QIODevice::Append` (`true` = the Append flag is present). -/
def dailyRecommendedOpenModeAppend : Bool := true

/-- Opening a file with `QFile::WriteOnly | QFile::Text` plus optionally
`QIODevice::Append`: append keeps existing content, plain write-only
truncates; both create a missing file. -/
def openFile (dir : List DEntry) (name : String) (append : Bool) (nowSec : Nat) :
    List DEntry :=
  dirSet dir name (if append then (dirGet dir name).getD "" else "") nowSec

/-- `mOutputStream << message << Qt::endl` on the open file. -/
def appendMsg (dir : List DEntry) (name : String) (message : String) (nowSec : Nat) :
    List DEntry :=
  dirSet dir name ((dirGet dir name).getD "" ++ message ++ "\n") nowSec

/-- `DailyFileDestination` state: the log directory, the strategy state and
the currently open file's name. -/
structure DailyDest where
  dir : List DEntry
  strat : DailyStrategy
  openName : String

/-- `DailyFileDestination::DailyFileDestination` (QsLogDestFile.cpp
270-302): `setInitialInfo` on the configured path, compute the dated file
name, and open it with `QFile::WriteOnly | QFile::Text` — without the
strategy's recommended `Append` flag. -/
def mkDailyDest (dir : List DEntry) (filePath : String) (strat0 : DailyStrategy)
    (now : Instant) : DailyDest :=
  let strat1 := dailySetInitialInfo strat0 filePath now.sec
  let fileName := dailyGetFileName strat1 now
  { dir := openFile dir fileName false now.sec
    strat := strat1
    openName := fileName }

/-- `DailyFileDestination::write` (QsLogDestFile.cpp 304-321): consult
`shouldRotate()` (which advances the deadline on a true answer), run the
retention `rotate()`, reopen the freshly computed dated name with the
strategy's recommended `Append` flag, then append the message. -/
def dailyWrite (d : DailyDest) (message : String) (now : Instant) : DailyDest :=
  let r := dailyShouldRotate now.sec d.strat
  if r.1 then
    let newName := dailyGetFileName r.2 now
    let dir1 := dailyRotate d.dir (qtSuffix newName)
    let dir2 := openFile dir1 newName dailyRecommendedOpenModeAppend now.sec
    { dir := appendMsg dir2 newName message now.sec
      strat := r.2
      openName := newName }
  else
    { d with dir := appendMsg d.dir d.openName message now.sec, strat := r.2 }

/-! ## Backup-chain lemmas -/

lemma fsSet_same (fs : SizeFS) (n : SizeName) (v : Option String) :
    fsSet fs n v n = v := by
  simp [fsSet]

lemma fsSet_other (fs : SizeFS) (n : SizeName) (v : Option String) (m : SizeName)
    (h : ¬ m = n) : fsSet fs n v m = fs m := by
  simp [fsSet, h]

lemma fsRemove_snd (fs : SizeFS) (n : SizeName) :
    (fsRemove fs n).2 = (fs n).isSome := by
  unfold fsRemove
  split_ifs with h
  · exact h.symm
  · simp only [Bool.not_eq_true] at h
    exact h.symm

lemma fsRemove_fst (fs : SizeFS) (n : SizeName) :
    (fsRemove fs n).1 = fsSet fs n none := by
  unfold fsRemove
  split_ifs with h
  · rfl
  · rw [Option.not_isSome_iff_eq_none] at h
    funext m
    show fs m = fsSet fs n none m
    unfold fsSet
    split_ifs with hm
    · rw [hm, h]
    · rfl

lemma fsRename_fst (fs : SizeFS) (a b : SizeName) (hab : ¬ a = b) (hb : fs b = none) :
    (fsRename fs a b).1 = fun m => if m = b then fs a else if m = a then none else fs m := by
  funext m
  unfold fsRename
  rcases ha : fs a with _ | v
  · simp only [ha, Option.isSome_none, Bool.false_and, Bool.false_eq_true, if_false]
    show fs m = if m = b then none else if m = a then none else fs m
    split_ifs with h1 h2
    · rw [h1, hb]
    · rw [h2, ha]
    · rfl
  · simp only [ha, hb, Option.isSome_some, Option.isNone_none, Bool.and_self, if_true]
    show fsSet (fsSet fs b (some v)) a none m = if m = b then some v else if m = a then none
      else fs m
    by_cases h1 : m = b
    · rw [if_pos h1, h1, fsSet_other _ _ _ _ (fun h => hab h.symm), fsSet_same]
    · rw [if_neg h1]
      by_cases h2 : m = a
      · rw [if_pos h2, h2, fsSet_same]
      · rw [if_neg h2, fsSet_other _ _ _ _ h2, fsSet_other _ _ _ _ h1]

lemma shiftStep_fst (fileName : String) (fs : SizeFS) (errs : List String) (k : Nat)
    (n : SizeName) :
    (shiftStep fileName (fs, errs) k).1 n =
      if n = SizeName.backup (k + 1) then fs (.backup k)
      else if n = SizeName.backup k then none
      else fs n := by
  have hne : ¬ (SizeName.backup k = SizeName.backup (k + 1)) := by
    simp only [SizeName.backup.injEq]; omega
  have hfst : (shiftStep fileName (fs, errs) k).1 =
      (fsRename (fsSet fs (.backup (k + 1)) none) (.backup k) (.backup (k + 1))).1 := by
    unfold shiftStep
    dsimp only
    split_ifs <;> rw [fsRemove_fst]
  rw [hfst, fsRename_fst _ _ _ hne (fsSet_same _ _ _)]
  dsimp only
  by_cases h1 : n = SizeName.backup (k + 1)
  · rw [if_pos h1, if_pos h1, fsSet_other _ _ _ _ hne]
  · rw [if_neg h1, if_neg h1]
    by_cases h2 : n = SizeName.backup k
    · rw [if_pos h2, if_pos h2]
    · rw [if_neg h2, if_neg h2, fsSet_other _ _ _ _ h1]

lemma canonical_ne_backup (x : Nat) : ¬ (SizeName.canonical = SizeName.backup x) := by
  intro h
  cases h

/-- The shift loop never touches the canonical file. -/
lemma shiftUp_fst_canonical (fileName : String) (i : Nat) :
    ∀ (fs : SizeFS) (errs : List String),
      (shiftUp fileName (fs, errs) i).1 SizeName.canonical = fs SizeName.canonical := by
  induction i with
  | zero => intro fs errs; rfl
  | succ i ih =>
    intro fs errs
    show (shiftUp fileName (shiftStep fileName (fs, errs) (i + 1)) i).1 SizeName.canonical
      = fs SizeName.canonical
    rcases hs : shiftStep fileName (fs, errs) (i + 1) with ⟨fs1, errs1⟩
    rw [ih fs1 errs1]
    have h := shiftStep_fst fileName fs errs (i + 1) SizeName.canonical
    rw [hs] at h
    dsimp only at h
    rw [h, if_neg (canonical_ne_backup _), if_neg (canonical_ne_backup _)]

/-- Pointwise effect of the shift loop on the backup files: running the loop
from index `i` moves `<file>.j` to `<file>.(j+1)` for every `1 ≤ j ≤ i` and
clears `<file>.1`. -/
lemma shiftUp_fst_backup (fileName : String) (i : Nat) :
    ∀ (fs : SizeFS) (errs : List String) (j : Nat),
      (shiftUp fileName (fs, errs) i).1 (SizeName.backup j) =
        if 2 ≤ j ∧ j ≤ i + 1 then fs (.backup (j - 1))
        else if j = 1 ∧ 1 ≤ i then none
        else fs (.backup j) := by
  induction i with
  | zero =>
    intro fs errs j
    show fs (SizeName.backup j) =
      if 2 ≤ j ∧ j ≤ 0 + 1 then fs (.backup (j - 1))
      else if j = 1 ∧ 1 ≤ 0 then none
      else fs (.backup j)
    split_ifs with h1 h2
    · exact absurd h1 (by omega)
    · exact absurd h2 (by omega)
    · rfl
  | succ i ih =>
    intro fs errs j
    show (shiftUp fileName (shiftStep fileName (fs, errs) (i + 1)) i).1 (SizeName.backup j)
      = _
    rcases hs : shiftStep fileName (fs, errs) (i + 1) with ⟨fs1, errs1⟩
    rw [ih fs1 errs1 j]
    have hstep : ∀ x, fs1 (SizeName.backup x) =
        if x = i + 1 + 1 then fs (.backup (i + 1)) else if x = i + 1 then none
        else fs (.backup x) := by
      intro x
      have h := shiftStep_fst fileName fs errs (i + 1) (SizeName.backup x)
      rw [hs] at h
      dsimp only at h
      simp only [SizeName.backup.injEq] at h
      exact h
    simp only [hstep]
    split_ifs <;>
      first
        | rfl
        | omega
        | (congr 1; simp only [SizeName.backup.injEq]; omega)

/-- The scan result never exceeds `backupsCount - 1` (the `qMin` cap). -/
lemma scanGo_le (fs : SizeFS) (backupsCount : Nat) :
    ∀ (fuel i last : Nat), last ≤ backupsCount - 1 →
      scanGo fs backupsCount fuel i last ≤ backupsCount - 1 := by
  intro fuel
  induction fuel with
  | zero => intro i last h; exact h
  | succ fuel ih =>
    intro i last h
    show (if fsExists fs (.backup i) then
        scanGo fs backupsCount fuel (i + 1) (min i (backupsCount - 1))
      else last) ≤ backupsCount - 1
    split_ifs
    · exact ih _ _ (by omega)
    · exact h

/-- On a contiguous backup chain `<file>.1 … <file>.L`, the scan loop
returns `min L (backupsCount - 1)` (or `0` when there is no backup). -/
lemma scanGo_chain (fs : SizeFS) (backupsCount L : Nat) (hL : L ≤ backupsCount)
    (hchain : ∀ j, 1 ≤ j → ((fs (SizeName.backup j)).isSome = true ↔ j ≤ L)) :
    ∀ (fuel i last : Nat), 1 ≤ i → i + fuel = backupsCount + 1 →
      scanGo fs backupsCount fuel i last =
        if L < i then last else min L (backupsCount - 1) := by
  intro fuel
  induction fuel generalizing L with
  | zero =>
    intro i last h1 h2
    show last = _
    rw [if_pos (by omega)]
  | succ fuel ih =>
    intro i last h1 h2
    show (if fsExists fs (.backup i) then
        scanGo fs backupsCount fuel (i + 1) (min i (backupsCount - 1))
      else last) = _
    by_cases hex : i ≤ L
    · have hsome : fsExists fs (.backup i) = true := (hchain i h1).mpr hex
      rw [if_pos hsome, ih L hL hchain (i + 1) _ (by omega) (by omega)]
      split_ifs <;> omega
    · have hnone : ¬ (fsExists fs (.backup i) = true) :=
        fun h => hex ((hchain i h1).mp h)
      rw [if_neg hnone, if_pos (by omega)]

lemma lastExistingBackupIndex_chain (fs : SizeFS) (backupsCount L : Nat)
    (hL : L ≤ backupsCount)
    (hchain : ∀ j, 1 ≤ j → ((fs (SizeName.backup j)).isSome = true ↔ j ≤ L)) :
    lastExistingBackupIndex fs backupsCount =
      if L = 0 then 0 else min L (backupsCount - 1) := by
  unfold lastExistingBackupIndex
  rw [scanGo_chain fs backupsCount L hL hchain backupsCount 1 0 (by omega) (by omega)]
  split_ifs <;> omega

lemma encodeFS_backup (c : Option String) (bs : List String) (j : Nat) :
    encodeFS c bs (SizeName.backup j) =
      if 1 ≤ j ∧ j ≤ bs.length then some (bs.getD (j - 1) "") else none := rfl

lemma backup_ne_canonical (x : Nat) : ¬ (SizeName.backup x = SizeName.canonical) := by
  intro h
  cases h

/-- Step 3 helper: `if (QFile::exists(n)) QFile::remove(n)` clears `n`. -/
lemma removeIfExists (fs : SizeFS) (n : SizeName) :
    (if fsExists fs n then (fsRemove fs n).1 else fs) = fsSet fs n none := by
  split_ifs with h
  · exact fsRemove_fst fs n
  · unfold fsExists at h
    rw [Option.not_isSome_iff_eq_none] at h
    funext m
    unfold fsSet
    split_ifs with hm
    · rw [hm]; exact h
    · rfl

/-- Crux: on canonical content `c` with a contiguous backup chain `bs`
(`bs.length ≤ backupsCount`), one `rotate()` call ends with the canonical
file renamed to `<file>.1` and the old backups shifted up, keeping the
first `backupsCount - 1` of them. -/
lemma sizeRotate_encode (fileName c : String) (bs : List String) (N : Nat)
    (hN : 1 ≤ N) (hlen : bs.length ≤ N) :
    (sizeRotate (encodeFS (some c) bs) fileName N).1
      = encodeFS none (c :: bs.take (N - 1)) := by
  have htake : ∀ m, m < N - 1 → (bs.take (N - 1)).getD m "" = bs.getD m "" := by
    intro m hm
    simp [List.getD_eq_getD_get?, List.getElem?_take_of_lt hm]
  have hchain : ∀ j, 1 ≤ j →
      (((encodeFS (some c) bs) (SizeName.backup j)).isSome = true ↔ j ≤ bs.length) := by
    intro j hj
    rw [encodeFS_backup]
    split_ifs with h
    · simp [h.2]
    · simp only [Option.isSome_none, Bool.false_eq_true, false_iff]
      omega
  have hlast := lastExistingBackupIndex_chain (encodeFS (some c) bs) N bs.length hlen hchain
  have hcan : (shiftUp fileName (encodeFS (some c) bs, ([] : List String))
      (lastExistingBackupIndex (encodeFS (some c) bs) N)).1 SizeName.canonical = some c :=
    shiftUp_fst_canonical _ _ _ _
  unfold sizeRotate
  rw [if_neg (by omega : ¬ N = 0)]
  dsimp only
  rw [removeIfExists]
  rw [fsRename_fst _ _ _ (canonical_ne_backup 1) (fsSet_same _ _ _)]
  funext n
  dsimp only
  cases n with
  | canonical =>
    rw [if_neg (canonical_ne_backup 1), if_pos rfl]
    rfl
  | backup j =>
    by_cases hj1 : j = 1
    · subst hj1
      rw [if_pos rfl, fsSet_other _ _ _ _ (canonical_ne_backup 1), hcan, encodeFS_backup,
        if_pos ⟨le_refl 1, by simp⟩]
      rfl
    · rw [if_neg (by simp [SizeName.backup.injEq, hj1]), if_neg (backup_ne_canonical j),
        fsSet_other _ _ _ _ (by simp [SizeName.backup.injEq, hj1]),
        shiftUp_fst_backup, hlast]
      simp only [encodeFS_backup, List.length_cons, List.length_take]
      rcases Nat.eq_zero_or_pos j with hj0 | hjpos
      · subst hj0
        split_ifs <;> first | rfl | omega
      · obtain ⟨k, rfl⟩ : ∃ k, j = k + 2 := ⟨j - 2, by omega⟩
        simp only [show k + 2 - 1 = k + 1 from rfl, show k + 1 - 1 = k from rfl,
          List.getD_cons_succ]
        split_ifs <;> first | rfl | omega | rw [htake k (by omega)]

/-- After any `rotate()` call, the canonical path is free: it was deleted
(`backupCount == 0`) or renamed away (otherwise; if the rename failed the
canonical file did not exist to begin with). -/
lemma sizeRotate_fst_canonical (fs : SizeFS) (fileName : String) (N : Nat) :
    (sizeRotate fs fileName N).1 SizeName.canonical = none := by
  by_cases h : N = 0
  · unfold sizeRotate
    rw [if_pos h]
    dsimp only
    rw [fsRemove_fst]
    exact fsSet_same _ _ _
  · unfold sizeRotate
    rw [if_neg h]
    dsimp only
    rw [removeIfExists, fsRename_fst _ _ _ (canonical_ne_backup 1) (fsSet_same _ _ _)]
    dsimp only
    rw [if_neg (canonical_ne_backup 1), if_pos rfl]

/-- After a `rotate()` call with at least one backup slot, `<file>.1` holds
the pre-rotation canonical content. -/
lemma sizeRotate_fst_backup1 (fs : SizeFS) (fileName : String) (N : Nat) (hN : 1 ≤ N) :
    (sizeRotate fs fileName N).1 (SizeName.backup 1) = fs SizeName.canonical := by
  unfold sizeRotate
  rw [if_neg (by omega)]
  dsimp only
  rw [removeIfExists, fsRename_fst _ _ _ (canonical_ne_backup 1) (fsSet_same _ _ _)]
  dsimp only
  rw [if_pos rfl, fsSet_other _ _ _ _ (canonical_ne_backup 1), shiftUp_fst_canonical]

lemma encodeFS_set_canonical (bs : List String) (c : String) (old : Option String) :
    fsSet (encodeFS old bs) SizeName.canonical (some c) = encodeFS (some c) bs := by
  funext n
  unfold fsSet
  split_ifs with h
  · rw [h]; rfl
  · cases n with
    | canonical => exact absurd rfl h
    | backup j => rfl

lemma emptyFS_encode : (fun _ => none : SizeFS) = encodeFS none [] := by
  funext n
  cases n with
  | canonical => rfl
  | backup j =>
    show (none : Option String)
      = if 1 ≤ j ∧ j ≤ ([] : List String).length then some (([] : List String).getD (j - 1) "")
        else none
    rw [if_neg]
    rw [show ([] : List String).length = 0 from rfl]
    omega

/-- Iterating write-then-rotate preserves the encoded-chain shape. -/
lemma rotationCycle_encode (fileName : String) (N : Nat) (hN : 1 ≤ N) :
    ∀ (contents bs : List String), bs.length ≤ N →
      List.foldl (fun fs c => (sizeRotate (fsSet fs .canonical (some c)) fileName N).1)
          (encodeFS none bs) contents
        = encodeFS none (List.foldl (fun bs c => c :: bs.take (N - 1)) bs contents) := by
  intro contents
  induction contents with
  | nil => intro bs h; rfl
  | cons c t ih =>
    intro bs h
    show List.foldl _
        ((sizeRotate (fsSet (encodeFS none bs) .canonical (some c)) fileName N).1) t = _
    rw [encodeFS_set_canonical, sizeRotate_encode fileName c bs N hN h,
      ih (c :: bs.take (N - 1)) (by simp only [List.length_cons, List.length_take]; omega)]
    rfl

lemma backupChain_length (N : Nat) (hN : 1 ≤ N) :
    ∀ (contents bs : List String), bs.length ≤ N → contents ≠ [] →
      (List.foldl (fun bs c => c :: bs.take (N - 1)) bs contents).length
        = min (bs.length + contents.length) N := by
  intro contents
  induction contents with
  | nil => intro bs _ hne; exact absurd rfl hne
  | cons c t ih =>
    intro bs hbs _
    show (List.foldl _ (c :: bs.take (N - 1)) t).length = _
    rcases eq_or_ne t [] with rfl | htne
    · simp only [List.foldl_nil, List.length_cons, List.length_take, List.length_nil]
      omega
    · rw [ih (c :: bs.take (N - 1))
        (by simp only [List.length_cons, List.length_take]; omega) htne]
      simp only [List.length_cons, List.length_take]
      omega

/-! ## Write-path lemmas -/

lemma canonContent_set (fs : SizeFS) (v : String) :
    canonContent (fsSet fs SizeName.canonical (some v)) = v := by
  unfold canonContent
  rw [fsSet_same]
  rfl

/-- After the rotation branch of `write`, the reopened canonical file is
fresh (rotation always freed the canonical path). -/
lemma writeRotatePhase_canon (d : FileDest) :
    canonContent (writeRotatePhase d).fs = "" := by
  unfold writeRotatePhase
  dsimp only
  rw [canonContent_set, sizeRotate_fst_canonical]
  rfl

/-- After the rotation branch of `write`, `setInitialInfo` has re-baselined
the byte counter to the size of the reopened file. -/
lemma writeRotatePhase_size (d : FileDest) :
    (writeRotatePhase d).strat.mCurrentSizeInBytes
      = utf8Size (canonContent (writeRotatePhase d).fs) := by
  unfold writeRotatePhase setInitialInfo
  dsimp only
  rw [canonContent_set]

lemma fdWrite_no_trigger (d : FileDest) (message : String)
    (h : d.strat.mCurrentSizeInBytes + utf8Size message ≤ d.strat.mMaxSizeInBytes) :
    fdWrite d message
      = writeAppend { d with strat := includeMessageInCalculation d.strat message } message := by
  unfold fdWrite
  dsimp only
  rw [if_neg]
  simp only [sizeShouldRotate, includeMessageInCalculation, decide_eq_true_eq, not_lt]
  exact h

/-- Writes whose running totals stay within the budget never rotate and
only append to the canonical file. -/
lemma fdWriteAll_no_rotation :
    ∀ (msgs : List String) (d : FileDest),
      (∀ p ∈ msgs.inits,
        d.strat.mCurrentSizeInBytes + sumSizes p ≤ d.strat.mMaxSizeInBytes) →
      (fdWriteAll d msgs).rotations = d.rotations ∧
      canonContent (fdWriteAll d msgs).fs = canonContent d.fs ++ joinTerminated msgs ∧
      (fdWriteAll d msgs).strat
        = { d.strat with
              mCurrentSizeInBytes := d.strat.mCurrentSizeInBytes + sumSizes msgs } := by
  intro msgs
  induction msgs with
  | nil =>
    intro d h
    refine ⟨rfl, ?_, ?_⟩
    · show canonContent d.fs = canonContent d.fs ++ joinTerminated []
      rw [show joinTerminated [] = "" from rfl]
      simp
    · show d.strat = _
      rw [show sumSizes [] = 0 from rfl, add_zero]
  | cons m t ih =>
    intro d h
    have hmem : [m] ∈ (m :: t).inits := by
      simp [List.mem_inits]
    have hm : d.strat.mCurrentSizeInBytes + utf8Size m ≤ d.strat.mMaxSizeInBytes := by
      have := h [m] hmem
      simp only [sumSizes, List.map_cons, List.map_nil, List.sum_cons, List.sum_nil,
        add_zero] at this
      exact this
    have hstep := fdWrite_no_trigger d m hm
    have hfold : fdWriteAll d (m :: t) = fdWriteAll (fdWrite d m) t := rfl
    rw [hfold, hstep]
    have hbudget : ∀ p ∈ t.inits,
        (writeAppend { d with strat := includeMessageInCalculation d.strat m } m
            ).strat.mCurrentSizeInBytes + sumSizes p
          ≤ (writeAppend { d with strat := includeMessageInCalculation d.strat m } m
            ).strat.mMaxSizeInBytes := by
      intro p hp
      have hp2 : m :: p ∈ (m :: t).inits := by
        rw [List.mem_inits] at hp ⊢
        obtain ⟨r, hr⟩ := hp
        exact ⟨r, by rw [List.cons_append, hr]⟩
      have := h (m :: p) hp2
      simp only [writeAppend, includeMessageInCalculation, sumSizes, List.map_cons,
        List.sum_cons] at this ⊢
      omega
    obtain ⟨ih1, ih2, ih3⟩ := ih _ hbudget
    refine ⟨ih1, ?_, ?_⟩
    · rw [ih2]
      show canonContent (fsSet d.fs SizeName.canonical _) ++ _ = _
      rw [canonContent_set]
      show canonContent d.fs ++ m ++ "\n" ++ joinTerminated t
        = canonContent d.fs ++ (m ++ "\n" ++ joinTerminated t)
      simp [String.append_assoc]
    · rw [ih3]
      show ({ d.strat with mCurrentSizeInBytes :=
          d.strat.mCurrentSizeInBytes + utf8Size m + sumSizes t } : SizeStrategy) = _
      simp only [sumSizes, List.map_cons, List.sum_cons]
      congr 1
      omega

/-! ## Daily retention lemmas -/

instance : IsTotal DEntry (fun a b => b.mtime ≤ a.mtime) :=
  ⟨fun a b => le_total b.mtime a.mtime⟩

instance : IsTrans DEntry (fun a b => b.mtime ≤ a.mtime) :=
  ⟨fun _ _ _ h1 h2 => le_trans h2 h1⟩

lemma entryList_sorted (dir : List DEntry) (ext : String) :
    List.Sorted (fun a b => b.mtime ≤ a.mtime) (entryList dir ext) :=
  List.sorted_insertionSort _ _

lemma entryList_perm (dir : List DEntry) (ext : String) :
    (entryList dir ext).Perm (dir.filter (fun e => matchesExt ext e.name)) :=
  List.perm_insertionSort _ _

lemma dirGet_dirSet_same (dir : List DEntry) (name c : String) (t : Nat) :
    dirGet (dirSet dir name c t) name = some c := by
  induction dir with
  | nil =>
    unfold dirSet dirGet
    rw [if_pos rfl]
  | cons e es ih =>
    unfold dirSet
    split_ifs with h
    · unfold dirGet
      rw [if_pos rfl]
    · unfold dirGet
      rw [if_neg h]
      exact ih

/-! ## Theorems -/

/-- C1 (amended): for the Daily strategy with stored deadline `T =
st.rotation_tp`, `shouldRotate` returns false (with no state change) for
every call made at or before `T`; the first call made strictly after `T`
returns true and, as its only side effect, advances the stored deadline to
the next occurrence of `rotation_hour:rotation_minute` on the day after the
moment of recomputation; every subsequent call at or before that new
deadline returns false again. -/
theorem daily_shouldRotate_once_per_day (st : DailyStrategy) (now now2 : Nat)
    (hh : st.rotation_hour ≤ 23) (hm : st.rotation_minute ≤ 59)
    (hlt : st.rotation_tp < now)
    (hle : now2 ≤ next_rotation_tp now st.rotation_hour st.rotation_minute) :
    (∀ t, t ≤ st.rotation_tp → dailyShouldRotate t st = (false, st)) ∧
    dailyShouldRotate now st =
      (true, { st with
                 rotation_tp := next_rotation_tp now st.rotation_hour st.rotation_minute }) ∧
    next_rotation_tp now st.rotation_hour st.rotation_minute / secondsPerDay
      = now / secondsPerDay + 1 ∧
    dailyShouldRotate now2 (dailyShouldRotate now st).2
      = (false, (dailyShouldRotate now st).2) := by
  have h2 : dailyShouldRotate now st =
      (true, { st with
                 rotation_tp := next_rotation_tp now st.rotation_hour st.rotation_minute }) := by
    unfold dailyShouldRotate
    rw [if_pos hlt]
  refine ⟨?_, h2, ?_, ?_⟩
  · intro t ht
    unfold dailyShouldRotate
    rw [if_neg (by omega)]
  · simp only [next_rotation_tp, secondsPerDay] at *
    omega
  · rw [h2]
    unfold dailyShouldRotate
    rw [if_neg (by simpa using hle)]

/-- Witness for `daily_shouldRotate_once_per_day` at concrete inputs. -/
theorem daily_shouldRotate_once_per_day_witness :
    (⟨"app.log", 1, 30, 86400⟩ : DailyStrategy).rotation_hour ≤ 23 ∧
    (⟨"app.log", 1, 30, 86400⟩ : DailyStrategy).rotation_minute ≤ 59 ∧
    (⟨"app.log", 1, 30, 86400⟩ : DailyStrategy).rotation_tp < 90000 ∧
    90001 ≤ next_rotation_tp 90000 1 30 ∧
    ((∀ t, t ≤ (⟨"app.log", 1, 30, 86400⟩ : DailyStrategy).rotation_tp →
        dailyShouldRotate t ⟨"app.log", 1, 30, 86400⟩
          = (false, ⟨"app.log", 1, 30, 86400⟩)) ∧
      dailyShouldRotate 90000 ⟨"app.log", 1, 30, 86400⟩
        = (true, { (⟨"app.log", 1, 30, 86400⟩ : DailyStrategy) with
                     rotation_tp := next_rotation_tp 90000 1 30 }) ∧
      next_rotation_tp 90000 1 30 / secondsPerDay = 90000 / secondsPerDay + 1 ∧
      dailyShouldRotate 90001 (dailyShouldRotate 90000 ⟨"app.log", 1, 30, 86400⟩).2
        = (false, (dailyShouldRotate 90000 ⟨"app.log", 1, 30, 86400⟩).2)) :=
  ⟨by decide, by decide, by decide, by decide,
    daily_shouldRotate_once_per_day ⟨"app.log", 1, 30, 86400⟩ 90000 90001
      (by decide) (by decide) (by decide) (by decide)⟩

/-- C1 counterexample to the claim as stated: a call made exactly at the
stored deadline `T` returns false (the code tests `nowTime > rotation_tp_`
strictly), while the claim asserts that the first call made at or after `T`
returns true. -/
theorem daily_shouldRotate_at_deadline_counterexample :
    (⟨"app.log", 0, 0, 86400⟩ : DailyStrategy).rotation_tp = 86400 ∧
    (dailyShouldRotate 86400 ⟨"app.log", 0, 0, 86400⟩).1 = false := by
  decide

/-- C6: `calc_filename` inserts `_<year>_<month>_<day>` with no zero padding
before the final extension; a name without an extension gets a trailing
empty suffix segment. -/
theorem calc_filename_spec :
    calc_filename "app.log" 2024 3 5 = "app_2024_3_5.log" ∧
    calc_filename "app" 2024 3 5 = "app_2024_3_5." := by
  decide

/-- C9: for every non-negative argument `n`, `setBackupCount n` stores
`min n 10`, which always lies in `[0, MaxBackupCount] = [0, 10]`. -/
theorem setBackupCount_clamps (n : Int) (h : 0 ≤ n) :
    setBackupCount n = min n 10 ∧ 0 ≤ setBackupCount n ∧ setBackupCount n ≤ 10 := by
  refine ⟨rfl, ?_, ?_⟩ <;>
    simp only [setBackupCount, MaxBackupCount, le_min_iff, min_le_iff] <;> omega

/-- C2: with `backupCount = N ≥ 1`, after more than `N` write-then-rotate
rounds starting from an empty directory, exactly the backups `<path>.1` …
`<path>.N` exist, the canonical path is fresh, `<path>.1` holds the most
recently rotated content; moreover, immediately after any single rotation
on a chain state `<path>.1` holds the pre-rotation canonical content with
the canonical path fresh, and the scan for the highest existing backup is
capped at `backupCount - 1`. -/
theorem sizeRotate_backup_chain (fileName : String) (N : Nat) (contents : List String)
    (hN : 1 ≤ N) (hlen : N < contents.length) :
    (∀ i, ((rotationCycle fileName N contents) (SizeName.backup i)).isSome = true
        ↔ 1 ≤ i ∧ i ≤ N) ∧
    rotationCycle fileName N contents SizeName.canonical = none ∧
    rotationCycle fileName N contents (SizeName.backup 1) = contents.getLast? ∧
    (∀ c bs, bs.length ≤ N →
      (sizeRotate (encodeFS (some c) bs) fileName N).1 (SizeName.backup 1) = some c ∧
      (sizeRotate (encodeFS (some c) bs) fileName N).1 SizeName.canonical = none) ∧
    (∀ fs, lastExistingBackupIndex fs N ≤ N - 1) := by
  have hcycle : rotationCycle fileName N contents
      = encodeFS none (List.foldl (fun bs c => c :: bs.take (N - 1)) [] contents) := by
    unfold rotationCycle
    rw [emptyFS_encode]
    exact rotationCycle_encode fileName N hN contents [] (by simp)
  have hne : contents ≠ [] := by
    intro h
    rw [h] at hlen
    simp at hlen
  have hchainlen : (List.foldl (fun bs c => c :: bs.take (N - 1)) [] contents).length = N := by
    rw [backupChain_length N hN contents [] (by simp) hne]
    simp only [List.length_nil, Nat.zero_add]
    omega
  refine ⟨?_, ?_, ?_, ?_, ?_⟩
  · intro i
    rw [hcycle, encodeFS_backup, hchainlen]
    split_ifs with h
    · simp only [Option.isSome_some]
      exact iff_of_true trivial h
    · simp only [Option.isSome_none, Bool.false_eq_true, false_iff]
      exact h
  · rw [hcycle]; rfl
  · rcases contents.eq_nil_or_concat with rfl | ⟨t, a, rfl⟩
    · exact absurd rfl hne
    · rw [hcycle]
      show encodeFS none (List.foldl _ [] (List.concat t a)) (SizeName.backup 1) = _
      simp only [List.concat_eq_append, List.foldl_append, List.foldl_cons, List.foldl_nil,
        List.getLast?_concat, encodeFS_backup]
      rw [if_pos ⟨le_refl 1, by simp⟩]
      rfl
  · intro c bs h
    rw [sizeRotate_encode fileName c bs N hN h, encodeFS_backup,
      if_pos ⟨le_refl 1, by simp⟩]
    exact ⟨rfl, rfl⟩
  · intro fs
    exact scanGo_le fs N N 1 0 (by omega)

/-- Witness for `sizeRotate_backup_chain` at `N = 2`,
`contents = ["a", "b", "c"]`. -/
theorem sizeRotate_backup_chain_witness :
    1 ≤ 2 ∧ 2 < (["a", "b", "c"] : List String).length ∧
    ((∀ i, ((rotationCycle "app.log" 2 ["a", "b", "c"]) (SizeName.backup i)).isSome = true
        ↔ 1 ≤ i ∧ i ≤ 2) ∧
      rotationCycle "app.log" 2 ["a", "b", "c"] SizeName.canonical = none ∧
      rotationCycle "app.log" 2 ["a", "b", "c"] (SizeName.backup 1)
        = (["a", "b", "c"] : List String).getLast? ∧
      (∀ c bs, bs.length ≤ 2 →
        (sizeRotate (encodeFS (some c) bs) "app.log" 2).1 (SizeName.backup 1) = some c ∧
        (sizeRotate (encodeFS (some c) bs) "app.log" 2).1 SizeName.canonical = none) ∧
      (∀ fs, lastExistingBackupIndex fs 2 ≤ 2 - 1)) :=
  ⟨by decide, by decide,
    sizeRotate_backup_chain "app.log" 2 ["a", "b", "c"] (by decide) (by decide)⟩

/-- C7: with `backupCount = 0`, `rotate()` deletes the canonical file
outright, leaves every `<path>.i` unchanged (so no `.1` is ever created),
and reports a failed delete on the error channel without aborting. -/
theorem sizeRotate_zero_backups (fs : SizeFS) (fileName : String) :
    (sizeRotate fs fileName 0).1 SizeName.canonical = none ∧
    (∀ i, (sizeRotate fs fileName 0).1 (SizeName.backup i) = fs (SizeName.backup i)) ∧
    (sizeRotate fs fileName 0).2 =
      (if (fs SizeName.canonical).isSome then []
       else ["QsLog: backup delete failed " ++ fileName]) := by
  unfold sizeRotate
  rw [if_pos rfl]
  dsimp only
  refine ⟨?_, ?_, ?_⟩
  · rw [fsRemove_fst]
    exact fsSet_same _ _ _
  · intro i
    rw [fsRemove_fst]
    exact fsSet_other _ _ _ _ (backup_ne_canonical i)
  · rw [fsRemove_snd]

/-- C8: `mCurrentSizeInBytes` equals the size of the newly (re)opened
canonical file both right after destination construction and right after
the rotation branch of the write path (where `setInitialInfo` is called
again on the freshly reopened, empty file). -/
theorem currentSize_reset_after_rotation (fs0 : SizeFS) (filePath : String)
    (strat0 : SizeStrategy) (d : FileDest) :
    (mkFileDest fs0 filePath strat0).strat.mCurrentSizeInBytes
        = utf8Size (canonContent (mkFileDest fs0 filePath strat0).fs) ∧
    (writeRotatePhase d).strat.mCurrentSizeInBytes
        = utf8Size (canonContent (writeRotatePhase d).fs) ∧
    canonContent (writeRotatePhase d).fs = "" := by
  refine ⟨?_, writeRotatePhase_size d, writeRotatePhase_canon d⟩
  show utf8Size (canonContent fs0)
    = utf8Size (canonContent (fsSet fs0 SizeName.canonical (some (canonContent fs0))))
  rw [canonContent_set]

/-- C4: `shouldRotate()` is true iff `mCurrentSizeInBytes >
mMaxSizeInBytes`; since `includeMessageInCalculation` has already counted
the pending message when the check runs, the triggering message ends up
alone in the fresh canonical file while the pre-rotation content moved to
`<path>.1`. -/
theorem size_trigger_writes_to_new_file (d : FileDest) (message : String)
    (htrig : d.strat.mCurrentSizeInBytes + utf8Size message > d.strat.mMaxSizeInBytes)
    (hN : 1 ≤ d.strat.mBackupsCount) :
    (∀ st : SizeStrategy,
      sizeShouldRotate st = true ↔ st.mCurrentSizeInBytes > st.mMaxSizeInBytes) ∧
    (fdWrite d message).fs SizeName.canonical = some (message ++ "\n") ∧
    (fdWrite d message).fs (SizeName.backup 1) = d.fs SizeName.canonical := by
  have hcond : sizeShouldRotate (includeMessageInCalculation d.strat message) = true := by
    simp only [sizeShouldRotate, includeMessageInCalculation, decide_eq_true_eq]
    exact htrig
  have hw : fdWrite d message
      = writeAppend
          (writeRotatePhase { d with strat := includeMessageInCalculation d.strat message })
          message := by
    unfold fdWrite
    dsimp only
    rw [if_pos hcond]
  refine ⟨?_, ?_, ?_⟩
  · intro st
    simp [sizeShouldRotate]
  · rw [hw]
    unfold writeAppend
    dsimp only
    rw [fsSet_same, writeRotatePhase_canon]
    simp
  · rw [hw]
    unfold writeAppend
    dsimp only
    rw [fsSet_other _ _ _ _ (backup_ne_canonical 1)]
    unfold writeRotatePhase
    dsimp only
    rw [fsSet_other _ _ _ _ (backup_ne_canonical 1)]
    exact sizeRotate_fst_backup1 _ _ _ hN

/-- Witness for `size_trigger_writes_to_new_file` at a concrete state. -/
theorem size_trigger_writes_to_new_file_witness :
    ((⟨encodeFS (some "x") [], ⟨"app.log", 5, 3, 1⟩, 0, []⟩ :
        FileDest).strat.mCurrentSizeInBytes + utf8Size "mm"
      > (⟨encodeFS (some "x") [], ⟨"app.log", 5, 3, 1⟩, 0, []⟩ :
        FileDest).strat.mMaxSizeInBytes) ∧
    1 ≤ (⟨encodeFS (some "x") [], ⟨"app.log", 5, 3, 1⟩, 0, []⟩ :
        FileDest).strat.mBackupsCount ∧
    ((∀ st : SizeStrategy,
        sizeShouldRotate st = true ↔ st.mCurrentSizeInBytes > st.mMaxSizeInBytes) ∧
      (fdWrite ⟨encodeFS (some "x") [], ⟨"app.log", 5, 3, 1⟩, 0, []⟩ "mm").fs
          SizeName.canonical = some ("mm" ++ "\n") ∧
      (fdWrite ⟨encodeFS (some "x") [], ⟨"app.log", 5, 3, 1⟩, 0, []⟩ "mm").fs
          (SizeName.backup 1)
        = (⟨encodeFS (some "x") [], ⟨"app.log", 5, 3, 1⟩, 0, []⟩ :
            FileDest).fs SizeName.canonical) :=
  ⟨by decide, by decide,
    size_trigger_writes_to_new_file ⟨encodeFS (some "x") [], ⟨"app.log", 5, 3, 1⟩, 0, []⟩
      "mm" (by decide) (by decide)⟩

/-- C3: starting from a fresh destination, if every prefix of the message
sequence stays within `maxSizeBytes`, no rotation happens and the canonical
file holds every message, each followed by the line terminator, in write
order. -/
theorem size_no_rotation_within_budget (fs0 : SizeFS) (filePath : String)
    (strat0 : SizeStrategy) (msgs : List String)
    (hfresh : fs0 SizeName.canonical = none)
    (hbudget : ∀ p ∈ msgs.inits, sumSizes p ≤ strat0.mMaxSizeInBytes) :
    (fdWriteAll (mkFileDest fs0 filePath strat0) msgs).rotations = 0 ∧
    canonContent (fdWriteAll (mkFileDest fs0 filePath strat0) msgs).fs
      = joinTerminated msgs := by
  have hcanon : canonContent (mkFileDest fs0 filePath strat0).fs = "" := by
    show canonContent (fsSet fs0 SizeName.canonical (some (canonContent fs0))) = ""
    rw [canonContent_set]
    unfold canonContent
    rw [hfresh]
    rfl
  have hcurr : (mkFileDest fs0 filePath strat0).strat.mCurrentSizeInBytes = 0 := by
    show utf8Size (canonContent fs0) = 0
    unfold canonContent
    rw [hfresh]
    rfl
  have hmax : (mkFileDest fs0 filePath strat0).strat.mMaxSizeInBytes
      = strat0.mMaxSizeInBytes := rfl
  obtain ⟨h1, h2, _⟩ := fdWriteAll_no_rotation msgs (mkFileDest fs0 filePath strat0)
    (by
      intro p hp
      rw [hcurr, hmax, zero_add]
      exact hbudget p hp)
  refine ⟨h1, ?_⟩
  rw [h2, hcanon]
  simp

/-- Witness for `size_no_rotation_within_budget` at a concrete run. -/
theorem size_no_rotation_within_budget_witness :
    ((fun _ => none : SizeFS) SizeName.canonical = none) ∧
    (∀ p ∈ (["ab", "cd"] : List String).inits,
      sumSizes p ≤ (⟨"app.log", 99, 10, 2⟩ : SizeStrategy).mMaxSizeInBytes) ∧
    ((fdWriteAll (mkFileDest (fun _ => none) "app.log" ⟨"app.log", 99, 10, 2⟩)
        ["ab", "cd"]).rotations = 0 ∧
      canonContent (fdWriteAll (mkFileDest (fun _ => none) "app.log"
          ⟨"app.log", 99, 10, 2⟩) ["ab", "cd"]).fs
        = joinTerminated ["ab", "cd"]) :=
  ⟨rfl, by decide,
    size_no_rotation_within_budget (fun _ => none) "app.log" ⟨"app.log", 99, 10, 2⟩
      ["ab", "cd"] rfl (by decide)⟩

/-- C5: one Daily `rotate()` invocation performs only retention cleanup:
with unique file names, the listing of `*.<ext>` files is sorted most
recently modified first, no file is renamed or created (the result is a
sub-collection of the directory), a file survives iff it does not match the
filter or is among the first 29 of the sorted listing, and with 35 matching
files exactly the 29 most recently modified remain. -/
theorem daily_rotate_retention (dir : List DEntry) (ext : String)
    (hnodup : (dir.map DEntry.name).Nodup)
    (hcount : (dir.filter (fun e => matchesExt ext e.name)).length = 35) :
    List.Sorted (fun a b => b.mtime ≤ a.mtime) (entryList dir ext) ∧
    (entryList dir ext).Perm (dir.filter (fun e => matchesExt ext e.name)) ∧
    (∀ e ∈ dailyRotate dir ext, e ∈ dir) ∧
    (∀ e ∈ dir, (e ∈ dailyRotate dir ext ↔
      (matchesExt ext e.name = false ∨ e ∈ (entryList dir ext).take 29))) ∧
    ((dailyRotate dir ext).filter (fun e => matchesExt ext e.name)).Perm
      ((entryList dir ext).take 29) ∧
    ((dailyRotate dir ext).filter (fun e => matchesExt ext e.name)).length = 29 := by
  have hpermS := entryList_perm dir ext
  have hsorted := entryList_sorted dir ext
  have hnodupDir : dir.Nodup := hnodup.of_map
  have hnodupM : (dir.filter (fun e => matchesExt ext e.name)).Nodup := hnodupDir.filter _
  have hnodupS : (entryList dir ext).Nodup := hpermS.nodup_iff.mpr hnodupM
  have hinj : ∀ x ∈ dir, ∀ y ∈ dir, x.name = y.name → x = y :=
    fun x hx y hy hxy => List.inj_on_of_nodup_map hnodup hx hy hxy
  have hSlen : (entryList dir ext).length = 35 := by rw [hpermS.length_eq, hcount]
  have hgt : (entryList dir ext).length > 29 := by omega
  have hrot : dailyRotate dir ext
      = removeNames dir (((entryList dir ext).drop 29).map DEntry.name) := by
    unfold dailyRotate
    dsimp only
    rw [if_pos hgt]
  have hdropmem : ∀ e ∈ dir, (e.name ∈ ((entryList dir ext).drop 29).map DEntry.name
      ↔ e ∈ (entryList dir ext).drop 29) := by
    intro e he
    constructor
    · intro hn
      obtain ⟨f, hf, hfe⟩ := List.mem_map.mp hn
      have hfS : f ∈ entryList dir ext := List.mem_of_mem_drop hf
      have hfM := hpermS.mem_iff.mp hfS
      have hfdir : f ∈ dir := (List.mem_filter.mp hfM).1
      rw [hinj e he f hfdir hfe.symm]
      exact hf
    · intro hf
      exact List.mem_map.mpr ⟨e, hf, rfl⟩
  have hmem_remove : ∀ e ∈ dir, (e ∈ dailyRotate dir ext ↔
      ¬ e ∈ (entryList dir ext).drop 29) := by
    intro e he
    rw [hrot]
    unfold removeNames
    rw [List.mem_filter]
    constructor
    · rintro ⟨_, hdec⟩ hdrop
      rw [decide_eq_true_eq] at hdec
      exact hdec ((hdropmem e he).mpr hdrop)
    · intro hnot
      refine ⟨he, ?_⟩
      rw [decide_eq_true_eq]
      intro hn
      exact hnot ((hdropmem e he).mp hn)
  have hdisj : List.Disjoint ((entryList dir ext).take 29) ((entryList dir ext).drop 29) := by
    apply List.disjoint_of_nodup_append
    rw [List.take_append_drop]
    exact hnodupS
  have hiff : ∀ e ∈ dir, (e ∈ dailyRotate dir ext ↔
      (matchesExt ext e.name = false ∨ e ∈ (entryList dir ext).take 29)) := by
    intro e he
    rw [hmem_remove e he]
    constructor
    · intro hnot
      cases hm : matchesExt ext e.name
      · exact Or.inl rfl
      · refine Or.inr ?_
        have heM : e ∈ dir.filter (fun e => matchesExt ext e.name) :=
          List.mem_filter.mpr ⟨he, hm⟩
        have heS : e ∈ entryList dir ext := hpermS.mem_iff.mpr heM
        have heS2 : e ∈ (entryList dir ext).take 29 ++ (entryList dir ext).drop 29 := by
          rw [List.take_append_drop]
          exact heS
        rcases List.mem_append.mp heS2 with h | h
        · exact h
        · exact absurd h hnot
    · intro h hdrop
      rcases h with hfalse | htake
      · have heS : e ∈ entryList dir ext := List.mem_of_mem_drop hdrop
        have heM := hpermS.mem_iff.mp heS
        have hm := (List.mem_filter.mp heM).2
        rw [hfalse] at hm
        cases hm
      · exact hdisj htake hdrop
  have hperm29 : ((dailyRotate dir ext).filter (fun e => matchesExt ext e.name)).Perm
      ((entryList dir ext).take 29) := by
    have hnodupRot : (dailyRotate dir ext).Nodup := by
      rw [hrot]
      exact hnodupDir.filter _
    have hnodupRem : ((dailyRotate dir ext).filter
        (fun e => matchesExt ext e.name)).Nodup := hnodupRot.filter _
    have hnodupTake : ((entryList dir ext).take 29).Nodup :=
      (List.take_sublist _ _).nodup hnodupS
    apply (List.perm_ext_iff_of_nodup hnodupRem hnodupTake).mpr
    intro a
    rw [List.mem_filter]
    constructor
    · rintro ⟨haRot, ham⟩
      have hadir : a ∈ dir := by
        rw [hrot] at haRot
        exact (List.mem_filter.mp haRot).1
      rcases (hiff a hadir).mp haRot with hfalse | htake
      · rw [ham] at hfalse
        cases hfalse
      · exact htake
    · intro htake
      have haS : a ∈ entryList dir ext := List.mem_of_mem_take htake
      have haM := hpermS.mem_iff.mp haS
      obtain ⟨hadir, ham⟩ := List.mem_filter.mp haM
      exact ⟨(hiff a hadir).mpr (Or.inr htake), ham⟩
  refine ⟨hsorted, hpermS, ?_, hiff, hperm29, ?_⟩
  · intro e he
    rw [hrot] at he
    exact (List.mem_filter.mp he).1
  · rw [hperm29.length_eq, List.length_take, hSlen]
    omega

/-- Witness for `daily_rotate_retention`: a directory of 35 distinct
`.log` files. -/
theorem daily_rotate_retention_witness :
    (((List.range 35).map
        (fun i => ({ name := "f" ++ toString i ++ ".log", mtime := i, content := "" }
          : DEntry))).map DEntry.name).Nodup ∧
    (((List.range 35).map
        (fun i => ({ name := "f" ++ toString i ++ ".log", mtime := i, content := "" }
          : DEntry))).filter (fun e => matchesExt "log" e.name)).length = 35 ∧
    (((dailyRotate ((List.range 35).map
        (fun i => ({ name := "f" ++ toString i ++ ".log", mtime := i, content := "" }
          : DEntry))) "log").filter (fun e => matchesExt "log" e.name)).length = 29) :=
  ⟨by decide, by decide,
    (daily_rotate_retention ((List.range 35).map
        (fun i => ({ name := "f" ++ toString i ++ ".log", mtime := i, content := "" }
          : DEntry))) "log" (by decide) (by decide)).2.2.2.2.2⟩

/-- The rotation branch of `DailyFileDestination::write`, spelled out. -/
lemma dailyWrite_trigger (d : DailyDest) (message : String) (now : Instant)
    (htrig : d.strat.rotation_tp < now.sec) :
    dailyWrite d message now =
      { dir := appendMsg
          (openFile
            (dailyRotate d.dir
              (qtSuffix (calc_filename d.strat.fileName now.year now.month now.day)))
            (calc_filename d.strat.fileName now.year now.month now.day) true now.sec)
          (calc_filename d.strat.fileName now.year now.month now.day) message now.sec
        strat := { d.strat with
          rotation_tp := next_rotation_tp now.sec d.strat.rotation_hour
            d.strat.rotation_minute }
        openName := calc_filename d.strat.fileName now.year now.month now.day } := by
  unfold dailyWrite dailyShouldRotate dailyGetFileName dailyRecommendedOpenModeAppend
  rw [if_pos htrig]
  dsimp only
  rw [if_pos rfl]

/-- C10: the `DailyFileDestination` constructor opens the computed dated
file name write-only without the strategy's recommended `Append` flag, so
pre-existing content at that dated path is truncated to empty; the reopen
after a rotation inside `write()` uses the strategy's recommended `Append`
mode (the flag is `Append`) and so preserves existing content at the new
dated path, appending the message after it. -/
theorem daily_ctor_truncates_write_appends (dir0 : List DEntry) (filePath : String)
    (strat0 : DailyStrategy) (now1 now2 : Instant) (message oldC s : String)
    (hpre : dirGet dir0 (calc_filename filePath now1.year now1.month now1.day) = some oldC)
    (htrig : (mkDailyDest dir0 filePath strat0 now1).strat.rotation_tp < now2.sec)
    (hs : dirGet (mkDailyDest dir0 filePath strat0 now1).dir
        (calc_filename filePath now2.year now2.month now2.day) = some s)
    (hfew : (entryList (mkDailyDest dir0 filePath strat0 now1).dir
        (qtSuffix (calc_filename filePath now2.year now2.month now2.day))).length ≤ 29) :
    dailyRecommendedOpenModeAppend = true ∧
    dirGet (mkDailyDest dir0 filePath strat0 now1).dir
        (calc_filename filePath now1.year now1.month now1.day) = some "" ∧
    dirGet (dailyWrite (mkDailyDest dir0 filePath strat0 now1) message now2).dir
        (calc_filename filePath now2.year now2.month now2.day)
      = some (s ++ message ++ "\n") := by
  refine ⟨rfl, ?_, ?_⟩
  · show dirGet (openFile dir0 (calc_filename filePath now1.year now1.month now1.day)
        false now1.sec) (calc_filename filePath now1.year now1.month now1.day) = some ""
    unfold openFile
    exact dirGet_dirSet_same _ _ _ _
  · have hfile : (mkDailyDest dir0 filePath strat0 now1).strat.fileName = filePath := rfl
    rw [dailyWrite_trigger _ _ _ htrig, hfile]
    dsimp only
    have hrotnone : dailyRotate (mkDailyDest dir0 filePath strat0 now1).dir
        (qtSuffix (calc_filename filePath now2.year now2.month now2.day))
        = (mkDailyDest dir0 filePath strat0 now1).dir := by
      unfold dailyRotate
      dsimp only
      rw [if_neg (by omega)]
    rw [hrotnone]
    unfold openFile appendMsg
    rw [hs]
    rw [dirGet_dirSet_same]
    rw [dirGet_dirSet_same]
    rfl

/-- Witness for `daily_ctor_truncates_write_appends` at concrete inputs:
construction on 2024-03-05 truncates `app_2024_3_5.log`, and the
post-rotation reopen on 2024-03-06 appends to the pre-existing
`app_2024_3_6.log`. -/
theorem daily_ctor_truncates_write_appends_witness :
    dirGet [⟨"app_2024_3_5.log", 3, "prev"⟩, ⟨"app_2024_3_6.log", 5, "old"⟩]
        (calc_filename "app.log" 2024 3 5) = some "prev" ∧
    (mkDailyDest [⟨"app_2024_3_5.log", 3, "prev"⟩, ⟨"app_2024_3_6.log", 5, "old"⟩]
        "app.log" ⟨"x", 0, 0, 0⟩ ⟨0, 2024, 3, 5⟩).strat.rotation_tp < 90000 ∧
    dirGet (mkDailyDest [⟨"app_2024_3_5.log", 3, "prev"⟩, ⟨"app_2024_3_6.log", 5, "old"⟩]
        "app.log" ⟨"x", 0, 0, 0⟩ ⟨0, 2024, 3, 5⟩).dir
        (calc_filename "app.log" 2024 3 6) = some "old" ∧
    (entryList (mkDailyDest [⟨"app_2024_3_5.log", 3, "prev"⟩, ⟨"app_2024_3_6.log", 5, "old"⟩]
        "app.log" ⟨"x", 0, 0, 0⟩ ⟨0, 2024, 3, 5⟩).dir
        (qtSuffix (calc_filename "app.log" 2024 3 6))).length ≤ 29 ∧
    (dailyRecommendedOpenModeAppend = true ∧
      dirGet (mkDailyDest [⟨"app_2024_3_5.log", 3, "prev"⟩, ⟨"app_2024_3_6.log", 5, "old"⟩]
          "app.log" ⟨"x", 0, 0, 0⟩ ⟨0, 2024, 3, 5⟩).dir
          (calc_filename "app.log" 2024 3 5) = some "" ∧
      dirGet (dailyWrite (mkDailyDest
            [⟨"app_2024_3_5.log", 3, "prev"⟩, ⟨"app_2024_3_6.log", 5, "old"⟩]
            "app.log" ⟨"x", 0, 0, 0⟩ ⟨0, 2024, 3, 5⟩) "m" ⟨90000, 2024, 3, 6⟩).dir
          (calc_filename "app.log" 2024 3 6)
        = some ("old" ++ "m" ++ "\n")) :=
  ⟨by decide, by decide, by decide, by decide,
    daily_ctor_truncates_write_appends
      [⟨"app_2024_3_5.log", 3, "prev"⟩, ⟨"app_2024_3_6.log", 5, "old"⟩]
      "app.log" ⟨"x", 0, 0, 0⟩ ⟨0, 2024, 3, 5⟩ ⟨90000, 2024, 3, 6⟩ "m" "prev" "old"
      (by decide) (by decide) (by decide) (by decide)⟩

/-- Witness for `setBackupCount_clamps` at `n = 12`. -/
theorem setBackupCount_clamps_witness :
    (0 : Int) ≤ 12 ∧
    (setBackupCount 12 = min 12 10 ∧ 0 ≤ setBackupCount 12 ∧ setBackupCount 12 ≤ 10) :=
  ⟨by decide, setBackupCount_clamps 12 (by decide)⟩

end QsLog
